import Mathlib

/-!
Verification development for the fund-dashboard aggregation core
(`src/utils/dataLoader.js`, `src/App.js`, and the chart click handler).

The JavaScript code is shallowly embedded: JS primitive values become the
inductive type `JSVal` (numbers are modelled exactly as `Int`; the dashboard
only ever adds and compares them), records (one spreadsheet row) become
insertion-ordered association lists `Record`, and the plain object used as the
accumulator in `groupDataByField` becomes an insertion-ordered association
list with the ES2015 own-property iteration order (array-index keys first in
ascending numeric order, then the remaining string keys in insertion order)
applied when `Object.entries` reads it back.  The accumulator object is
treated as a prototype-free dictionary.  Array arguments that may be
`null`/`undefined` in JS (the `!data` guards) are modelled as `Option`.
-/

set_option maxHeartbeats 1000000

namespace FundDashboard

/-- A JavaScript primitive value as used by the dashboard: `undefined`,
`null`, booleans, (exact) numbers, `NaN`, and strings. -/
inductive JSVal where
  | undef
  | null
  | bool (b : Bool)
  | num (n : Int)
  | nan
  | str (s : String)
deriving DecidableEq

/-- JS `ToString` on primitive values (used for object property keys and
string concatenation). -/
def jsToString : JSVal → String
  | .undef => "undefined"
  | .null => "null"
  | .bool b => if b then "true" else "false"
  | .num n => toString n
  | .nan => "NaN"
  | .str s => s

/-- JS truthiness of a primitive value. -/
def jsTruthy : JSVal → Bool
  | .undef => false
  | .null => false
  | .bool b => b
  | .num n => decide (n ≠ 0)
  | .nan => false
  | .str s => decide (s ≠ "")

/-- JS `a || b` on primitive values: `a` when truthy, else `b`. -/
def jsOr (a b : JSVal) : JSVal :=
  if jsTruthy a then a else b

/-- JS `ToNumber` on non-string primitives, with `none` standing for `NaN`.
Strings never reach numeric conversion in `jsAdd` below (a string operand
makes `+` concatenate), so the string arm is unreachable from this
development and is mapped to `none`. -/
def toNumber : JSVal → Option Int
  | .undef => none
  | .null => some 0
  | .bool b => some (if b then 1 else 0)
  | .num n => some n
  | .nan => none
  | .str _ => none

/-- JS `+` on primitive values: if either operand is a string the result is
the concatenation of the `ToString`s, otherwise numeric addition (producing
`NaN` when an operand converts to `NaN`). -/
def jsAdd (a b : JSVal) : JSVal :=
  match a, b with
  | .str s, c => .str (s ++ jsToString c)
  | c, .str s => .str (jsToString c ++ s)
  | _, _ =>
    match toNumber a, toNumber b with
    | some x, some y => .num (x + y)
    | _, _ => .nan

/-- A JS object holding one spreadsheet row (or one aggregate row): an
insertion-ordered list of property-name/value pairs with distinct names. -/
abbrev Record := List (String × JSVal)

/-- JS property read `r[f]` on a `Record`: the stored value, or `undefined`
when the property is absent. -/
def getField : Record → String → JSVal
  | [], _ => .undef
  | e :: rest, f => if e.1 = f then e.2 else getField rest f

/-- JS property write `r[f] = v` on a `Record` (also the effect of a later
duplicate key in an object literal): overwrite in place, or append. -/
def setField : Record → String → JSVal → Record
  | [], f, v => [(f, v)]
  | e :: rest, f, v => if e.1 = f then (f, v) :: rest else e :: setField rest f v

/-- JS strict equality `v === s` between a primitive value and a string. -/
def strictEqStr (v : JSVal) (s : String) : Bool :=
  match v with
  | .str t => decide (t = s)
  | _ => false

/-- The grouping accumulator of `groupDataByField`: a plain JS object whose
values are arrays of records, modelled as an insertion-ordered list. -/
abbrev Groups := List (String × List Record)

/-- One step of the `reduce` in `groupDataByField`: `groups[key].push(item)`
after `if (!groups[key]) groups[key] = []` — append `item` to the group of
`key`, creating the group at the end when absent. -/
def insertGroup : Groups → String → Record → Groups
  | [], key, item => [(key, [item])]
  | e :: rest, key, item =>
    if e.1 = key then (e.1, e.2 ++ [item]) :: rest
    else e :: insertGroup rest key item

/-- The `reduce` body of `groupDataByField`: `const key = item[field]` is
coerced to a property string by the object access. -/
def groupStep (field : String) (groups : Groups) (item : Record) : Groups :=
  insertGroup groups (jsToString (getField item field)) item

/-- `groupDataByField(data, field)` from `src/utils/dataLoader.js`. -/
def groupDataByField (data : Option (List Record)) (field : String) : Groups :=
  match data with
  | none => []
  | some l => if l.isEmpty then [] else l.foldl (groupStep field) []

/-- Numeric value of a list of decimal digit characters. -/
def decimalVal (l : List Char) : Nat :=
  l.foldl (fun n c => n * 10 + (c.toNat - 48)) 0

/-- Whether a property string is an ES array index: the canonical decimal
form of an integer below `2^32 - 1` (non-empty, all digits, no leading zero
except for `"0"` itself). -/
def isArrayIndex (s : String) : Bool :=
  match s.data with
  | [] => false
  | [c] => c.isDigit
  | c :: rest =>
    c.isDigit && (c != '0') && rest.all Char.isDigit &&
      decide (decimalVal (c :: rest) < 4294967295)

/-- Sort key used to order array-index property strings. -/
def keyIndexVal (s : String) : Nat := decimalVal s.data

/-- Insert one entry into a list of entries sorted by ascending numeric key. -/
def insertIdx (e : String × List Record) :
    List (String × List Record) → List (String × List Record)
  | [] => [e]
  | f :: rest =>
    if keyIndexVal e.1 ≤ keyIndexVal f.1 then e :: f :: rest
    else f :: insertIdx e rest

/-- Insertion sort by ascending numeric key (for array-index keys). -/
def sortIdxKeys (l : List (String × List Record)) : List (String × List Record) :=
  l.foldr insertIdx []

/-- `Object.entries` on the grouping object, in ES2015 own-property order:
array-index keys in ascending numeric order first, then the other string
keys in insertion order. -/
def objectEntries (g : Groups) : List (String × List Record) :=
  sortIdxKeys (g.filter (fun e => isArrayIndex e.1)) ++
    g.filter (fun e => !isArrayIndex e.1)

/-- The inner `reduce` of `aggregateByField`:
`items.reduce((sum, item) => sum + (item[valueField] || 0), 0)`. -/
def sumValueField (items : List Record) (valueField : String) : JSVal :=
  items.foldl (fun sum item => jsAdd sum (jsOr (getField item valueField) (.num 0)))
    (.num 0)

/-- `calculateTotalAUM(data)` from `src/utils/dataLoader.js`. -/
def calculateTotalAUM (data : Option (List Record)) : JSVal :=
  match data with
  | none => .num 0
  | some l =>
    if l.isEmpty then .num 0
    else l.foldl (fun sum item => jsAdd sum (jsOr (getField item "MV") (.num 0)))
      (.num 0)

/-- The object literal `{[groupField]: key, [valueField]: <sum>, count: n}`
built for one group by `aggregateByField` (properties written in literal
order, a later duplicate name overwriting an earlier one). -/
def mkAggRow (groupField valueField key : String) (items : List Record) : Record :=
  setField
    (setField (setField [] groupField (.str key)) valueField
      (sumValueField items valueField))
    "count" (.num (items.length : Int))

/-- `aggregateByField(data, groupField, valueField)` from
`src/utils/dataLoader.js` (the app always passes `valueField = "MV"`,
the JS default). -/
def aggregateByField (data : Option (List Record)) (groupField valueField : String) :
    List Record :=
  match data with
  | none => []
  | some l =>
    if l.isEmpty then []
    else (objectEntries (groupDataByField (some l) groupField)).map
      (fun e => mkAggRow groupField valueField e.1 e.2)

/-- The drill-down selection state of `App.js`: the two `useState` slots
`selectedFundType` and `selectedSubFund` (`null` is `none`). -/
structure Selection where
  fundType : Option String
  subFund : Option String
deriving DecidableEq

/-- The initial state: `useState(null)` for both selectors. -/
def topState : Selection := ⟨none, none⟩

/-- The toggle in `PieChart`'s click handler: clicking the already selected
label passes `null` to `onItemSelect`, otherwise the clicked label. -/
def chartToggle (clicked : String) (selected : Option String) : Option String :=
  if selected = some clicked then none else some clicked

/-- `handleFundTypeSelect` from `App.js`: set the fund type and reset the
sub-fund selection. -/
def handleFundTypeSelect (fundType : Option String) (_s : Selection) : Selection :=
  ⟨fundType, none⟩

/-- `handleSubFundSelect` from `App.js`: set only the sub-fund selection. -/
def handleSubFundSelect (subFund : Option String) (s : Selection) : Selection :=
  ⟨s.fundType, subFund⟩

/-- Clicking segment `x` of the fund-type pie chart: the `PieChart` toggle
composed with `handleFundTypeSelect`. -/
def selectFundType (x : String) (s : Selection) : Selection :=
  handleFundTypeSelect (chartToggle x s.fundType) s

/-- Clicking segment `y` of the sub-fund pie chart: the `PieChart` toggle
composed with `handleSubFundSelect`. -/
def selectSubFund (y : String) (s : Selection) : Selection :=
  handleSubFundSelect (chartToggle y s.subFund) s

/-- A user selection event. -/
inductive SelEvent where
  | selType (x : String)
  | selSub (y : String)
deriving DecidableEq

/-- Run a sequence of selection events from a state.  A sub-fund selection is
only legal while a fund type is selected (the sub-fund chart is not rendered
otherwise); an illegal event aborts the run with `none`. -/
def runEvents : Selection → List SelEvent → Option Selection
  | s, [] => some s
  | s, SelEvent.selType x :: rest => runEvents (selectFundType x s) rest
  | s, SelEvent.selSub y :: rest =>
    if s.fundType = none then none else runEvents (selectSubFund y s) rest

/-- The hierarchical-consistency invariant of the selection state. -/
def hierConsistent (s : Selection) : Prop :=
  s.subFund ≠ none → s.fundType ≠ none

/-- `totalAUM` from `App.js`: computed from the full record set. -/
def totalAUM (fundData : List Record) : JSVal :=
  calculateTotalAUM (some fundData)

/-- `fundTypeData` from `App.js`. -/
def fundTypeData (fundData : List Record) : List Record :=
  aggregateByField (some fundData) "FundType" "MV"

/-- `subFundData` from `App.js` (the conditional tests JS truthiness of
`selectedFundType`, so the empty string also selects nothing). -/
def subFundData (fundData : List Record) (sel : Selection) : List Record :=
  match sel.fundType with
  | some ft =>
    if ft = "" then []
    else aggregateByField
      (some (fundData.filter (fun item => strictEqStr (getField item "FundType") ft)))
      "Fund" "MV"
  | none => []

/-- `fundDetailsData` from `App.js`: filters the full record set on strict
equality of the `Fund` property with the selected sub-fund. -/
def fundDetailsData (fundData : List Record) (sel : Selection) : List Record :=
  match sel.subFund with
  | some sf =>
    if sf = "" then []
    else fundData.filter (fun item => strictEqStr (getField item "Fund") sf)
  | none => []

/-- The four derived datasets `App.js` recomputes on every render. -/
structure DashboardView where
  totalAUM : JSVal
  fundTypeData : List Record
  subFundData : List Record
  fundDetailsData : List Record
deriving DecidableEq

/-- The derived-data block of `App.js` as one pure function of the loaded
records and the current selection. -/
def renderDashboard (fundData : List Record) (sel : Selection) : DashboardView :=
  ⟨totalAUM fundData, fundTypeData fundData,
    subFundData fundData sel, fundDetailsData fundData sel⟩

/-! ## Observation functions used only in the statements and proofs -/

/-- Observation: the group stored under key `k` (the JS read `groups[k]`,
with `[]` for an absent key). -/
def findGroup : Groups → String → List Record
  | [], _ => []
  | e :: rest, k => if e.1 = k then e.2 else findGroup rest k

/-- Observation: the integer contributed by one record to the sum over
`f` when its coerced value `r[f] || 0` is a number (and `0` otherwise). -/
def contribInt (f : String) (r : Record) : Int :=
  match jsOr (getField r f) (.num 0) with
  | .num n => n
  | _ => 0

/-- Decidable side condition: the coerced value `r[f] || 0` is a number
(true for a numeric, missing, or falsy field; false e.g. for a non-empty
string or `true`). -/
def numericContrib (f : String) (r : Record) : Bool :=
  match jsOr (getField r f) (.num 0) with
  | .num _ => true
  | _ => false

/-- Observation: the group keys of `data` under `field`, as property
strings, in first-occurrence order. -/
def firstKeys (data : List Record) (field : String) : List String :=
  data.foldl
    (fun acc r =>
      if jsToString (getField r field) ∈ acc then acc
      else acc ++ [jsToString (getField r field)])
    []

/-! ## Basic lemmas -/

theorem getField_setField_self (r : Record) (f : String) (v : JSVal) :
    getField (setField r f v) f = v := by
  induction r with
  | nil => simp [setField, getField]
  | cons e rest ih =>
    by_cases h : e.1 = f
    · simp [setField, h, getField]
    · simp [setField, h, getField, ih]

theorem getField_setField_ne (r : Record) (f g : String) (v : JSVal) (hfg : f ≠ g) :
    getField (setField r f v) g = getField r g := by
  induction r with
  | nil => simp [setField, getField, hfg]
  | cons e rest ih =>
    by_cases h : e.1 = f
    · simp [setField, h, getField, hfg, Ne.symm]
    · simp [setField, h, getField, ih]

theorem jsAdd_num (a b : Int) : jsAdd (.num a) (.num b) = .num (a + b) := rfl

theorem jsOr_num (n : Int) : jsOr (JSVal.num n) (JSVal.num 0) = JSVal.num n := by
  by_cases h : n = 0 <;> simp [jsOr, jsTruthy, h]

theorem foldl_jsAdd_num (l : List Int) (a : Int) :
    (l.map JSVal.num).foldl jsAdd (.num a) = .num (a + l.sum) := by
  induction l generalizing a with
  | nil => simp
  | cons x xs ih => simp [jsAdd_num, ih, add_assoc]

theorem strictEqStr_true_iff (v : JSVal) (s : String) :
    strictEqStr v s = true ↔ v = .str s := by
  cases v <;> simp [strictEqStr]

theorem selectFundType_subFund (x : String) (s : Selection) :
    (selectFundType x s).subFund = none := rfl

theorem selectSubFund_fundType (y : String) (s : Selection) :
    (selectSubFund y s).fundType = s.fundType := rfl

theorem runEvents_consistent (evs : List SelEvent) :
    ∀ s s' : Selection, hierConsistent s → runEvents s evs = some s' →
      hierConsistent s' := by
  induction evs with
  | nil =>
    intro s s' hs h
    simp [runEvents] at h
    exact h ▸ hs
  | cons e rest ih =>
    intro s s' hs h
    cases e with
    | selType x =>
      refine ih (selectFundType x s) s' ?_ h
      intro hsub
      exact absurd (selectFundType_subFund x s) hsub
    | selSub y =>
      by_cases hft : s.fundType = none
      · simp [runEvents, hft] at h
      · simp only [runEvents, if_neg hft] at h
        refine ih (selectSubFund y s) s' ?_ h
        intro _
        rw [selectSubFund_fundType]
        exact hft

/-! ## Claim theorems -/

/-- Claim C2 (counterexample): from the reachable state
`{fundType = "A", subFund = "B"}`, applying `selectFundType("A")` twice does
not return to the starting state and does not land in `Top`, and applying
`selectSubFund("B")` twice leaves `subFund` non-none. -/
theorem c2_toggle_counterexample :
    (selectFundType "A" (selectFundType "A" ⟨some "A", some "B"⟩) ≠
      (⟨some "A", some "B"⟩ : Selection)) ∧
    (selectFundType "A" (selectFundType "A" ⟨some "A", some "B"⟩) ≠ topState) ∧
    (selectSubFund "B" (selectSubFund "B" ⟨some "A", some "B"⟩)).subFund ≠ none := by
  refine ⟨?_, ?_, ?_⟩ <;> decide

/-- Claim C2 (amended): re-selecting the active fund type toggles the
selection off to `Top`, and applying `selectFundType(x)` twice from `Top`
returns to `Top`; re-selecting the active sub-fund returns `subFund` to none
with `fundType` unchanged, and applying `selectSubFund(y)` twice from any
state in which `y` is not already the selected sub-fund returns `subFund`
to none with `fundType` unchanged. -/
theorem c2_toggle_amended :
    (∀ (x : String) (sf : Option String), selectFundType x ⟨some x, sf⟩ = topState) ∧
    (∀ x : String, selectFundType x (selectFundType x topState) = topState) ∧
    (∀ (ft sf : Option String) (y : String), sf ≠ some y →
      selectSubFund y (selectSubFund y ⟨ft, sf⟩) = ⟨ft, none⟩) ∧
    (∀ (ft : Option String) (y : String), selectSubFund y ⟨ft, some y⟩ = ⟨ft, none⟩) := by
  refine ⟨?_, ?_, ?_, ?_⟩
  · intro x sf
    simp [selectFundType, chartToggle, handleFundTypeSelect, topState]
  · intro x
    simp [selectFundType, chartToggle, handleFundTypeSelect, topState]
  · intro ft sf y h
    simp [selectSubFund, chartToggle, handleSubFundSelect, h]
  · intro ft y
    simp [selectSubFund, chartToggle, handleSubFundSelect]

/-- Claim C2 (witness): concrete instance of the amended toggle law. -/
theorem c2_toggle_witness :
    (some "B" : Option String) ≠ some "C" ∧
    selectSubFund "C" (selectSubFund "C" ⟨some "A", some "B"⟩) = ⟨some "A", none⟩ :=
  ⟨by decide, c2_toggle_amended.2.2.1 (some "A") (some "B") "C" (by decide)⟩

/-- Claim C4: the headline total AUM computed by the dashboard depends only
on the loaded record set; any two selection states yield the same value. -/
theorem c4_totalAUM_selection_independent (fundData : List Record)
    (s1 s2 : Selection) :
    (renderDashboard fundData s1).totalAUM = (renderDashboard fundData s2).totalAUM :=
  rfl

/-- Claim C5: every state reachable from `{none, none}` by fund-type
selections and (legal) sub-fund selections satisfies "subFund is non-none
only while fundType is non-none"; moreover after any `selectFundType`
the sub-fund selection is none. -/
theorem c5_hierarchical_invariant (evs : List SelEvent) (s : Selection)
    (h : runEvents topState evs = some s) :
    hierConsistent s ∧
      ∀ (x : String) (s₀ : Selection), (selectFundType x s₀).subFund = none := by
  refine ⟨runEvents_consistent evs topState s ?_ h, fun x s₀ => rfl⟩
  intro hsub
  exact absurd rfl hsub

/-- Claim C5 (witness): a concrete legal run reaching `FundSelected`. -/
theorem c5_hierarchical_witness :
    runEvents topState [SelEvent.selType "A", SelEvent.selSub "B"] =
      some ⟨some "A", some "B"⟩ ∧
    hierConsistent ⟨some "A", some "B"⟩ :=
  ⟨by decide,
    (c5_hierarchical_invariant [SelEvent.selType "A", SelEvent.selSub "B"]
      ⟨some "A", some "B"⟩ (by decide)).1⟩

/-- Claim C8: the aggregation functions are total on empty or absent input:
the total is 0, the grouping is empty, and the aggregate is empty. -/
theorem c8_total_on_empty (gf vf : String) :
    calculateTotalAUM none = JSVal.num 0 ∧
    calculateTotalAUM (some []) = JSVal.num 0 ∧
    groupDataByField none gf = [] ∧
    groupDataByField (some []) gf = [] ∧
    aggregateByField none gf vf = [] ∧
    aggregateByField (some []) gf vf = [] :=
  ⟨rfl, rfl, rfl, rfl, rfl, rfl⟩

/-- Claim C9: the detail rows filter on the `Fund` property alone: a record
whose `Fund` matches the selected sub-fund appears in `fundDetailsData`
even when its `FundType` differs from the selected fund type (it is not
among the selected type's records). -/
theorem c9_detail_filters_on_fund_only (data : List Record) (ft sf : String)
    (r : Record) (hsf : sf ≠ "") (hr : r ∈ data)
    (hFund : getField r "Fund" = .str sf)
    (hType : getField r "FundType" ≠ .str ft) :
    r ∈ fundDetailsData data ⟨some ft, some sf⟩ ∧
    r ∉ data.filter (fun item => strictEqStr (getField item "FundType") ft) := by
  constructor
  · have hred : fundDetailsData data ⟨some ft, some sf⟩ =
        data.filter (fun item => strictEqStr (getField item "Fund") sf) := by
      simp [fundDetailsData, hsf]
    rw [hred]
    exact List.mem_filter.mpr ⟨hr, (strictEqStr_true_iff _ _).mpr hFund⟩
  · intro hmem
    exact hType ((strictEqStr_true_iff _ _).mp (List.mem_filter.mp hmem).2)

/-- Claim C9 (witness): a record of fund type `T2` with fund name `A` shows
up in the detail rows while fund type `T1` is selected. -/
theorem c9_detail_witness :
    ("A" : String) ≠ "" ∧
    [("Fund", JSVal.str "A"), ("FundType", JSVal.str "T2")] ∈
      fundDetailsData [[("Fund", JSVal.str "A"), ("FundType", JSVal.str "T2")]]
        ⟨some "T1", some "A"⟩ :=
  ⟨by decide,
    (c9_detail_filters_on_fund_only
      [[("Fund", JSVal.str "A"), ("FundType", JSVal.str "T2")]] "T1" "A"
      [("Fund", JSVal.str "A"), ("FundType", JSVal.str "T2")]
      (by decide) (by decide) (by decide) (by decide)).1⟩

theorem insertIdx_perm (e : String × List Record) (l : List (String × List Record)) :
    List.Perm (insertIdx e l) (e :: l) := by
  induction l with
  | nil => exact List.Perm.refl _
  | cons f rest ih =>
    by_cases h : keyIndexVal e.1 ≤ keyIndexVal f.1
    · simp only [insertIdx, if_pos h]
      exact List.Perm.refl _
    · simp only [insertIdx, if_neg h]
      exact (ih.cons f).trans (List.Perm.swap e f rest)

theorem sortIdxKeys_perm (l : List (String × List Record)) :
    List.Perm (sortIdxKeys l) l := by
  induction l with
  | nil => exact List.Perm.refl _
  | cons a t ih => exact (insertIdx_perm a (sortIdxKeys t)).trans (ih.cons a)

theorem objectEntries_perm (g : Groups) : List.Perm (objectEntries g) g := by
  unfold objectEntries
  exact ((sortIdxKeys_perm _).append_right _).trans (List.filter_append_perm _ g)

theorem len_insertGroup (g : Groups) (k : String) (i : Record) :
    ((insertGroup g k i).map (fun e => (e.2.length : Int))).sum =
      (g.map (fun e => (e.2.length : Int))).sum + 1 := by
  induction g with
  | nil => simp [insertGroup]
  | cons e rest ih =>
    by_cases h : e.1 = k
    · simp [insertGroup, h]
      ring
    · simp [insertGroup, h, ih]
      ring

theorem len_groupFold (field : String) (l : List Record) :
    ∀ g : Groups,
      ((l.foldl (groupStep field) g).map (fun e => (e.2.length : Int))).sum =
        (g.map (fun e => (e.2.length : Int))).sum + l.length := by
  induction l with
  | nil => intro g; simp
  | cons a t ih =>
    intro g
    simp only [List.foldl_cons]
    rw [ih (groupStep field g a)]
    unfold groupStep
    rw [len_insertGroup]
    simp only [List.length_cons]
    push_cast
    ring

theorem getField_mkAggRow_count (gf vf k : String) (items : List Record) :
    getField (mkAggRow gf vf k items) "count" = .num (items.length : Int) :=
  getField_setField_self _ _ _

/-- Claim C6: for every record sequence and group field (and value field),
the `count` properties of the rows produced by `aggregateByField` add up to
the length of the input sequence. -/
theorem c6_counts_sum_to_length (data : List Record) (gf vf : String) :
    ((aggregateByField (some data) gf vf).map (fun row => getField row "count")).foldl
      jsAdd (.num 0) = .num (data.length : Int) := by
  cases data with
  | nil => simp [aggregateByField]
  | cons a t =>
    have hagg : aggregateByField (some (a :: t)) gf vf =
        (objectEntries (groupDataByField (some (a :: t)) gf)).map
          (fun e => mkAggRow gf vf e.1 e.2) := by
      simp [aggregateByField]
    rw [hagg, List.map_map]
    have hmap : ((fun row => getField row "count") ∘
          fun e : String × List Record => mkAggRow gf vf e.1 e.2) =
        (JSVal.num ∘ fun e : String × List Record => (e.2.length : Int)) := by
      funext e
      exact getField_mkAggRow_count gf vf e.1 e.2
    rw [hmap, ← List.map_map, foldl_jsAdd_num]
    congr 1
    rw [zero_add]
    rw [((objectEntries_perm (groupDataByField (some (a :: t)) gf)).map
      (fun e : String × List Record => (e.2.length : Int))).sum_eq]
    have hg : groupDataByField (some (a :: t)) gf = (a :: t).foldl (groupStep gf) [] := by
      simp [groupDataByField]
    rw [hg, len_groupFold gf (a :: t) []]
    simp

theorem jsOr_contrib_num (f : String) (r : Record)
    (hr : numericContrib f r = true) :
    jsOr (getField r f) (.num 0) = .num (contribInt f r) := by
  unfold numericContrib at hr
  unfold contribInt
  cases hv : jsOr (getField r f) (JSVal.num 0) <;> rw [hv] at hr <;> simp_all

theorem foldl_sum_numeric (f : String) (items : List Record) :
    (∀ r ∈ items, numericContrib f r = true) → ∀ a : Int,
      items.foldl
        (fun sum item => jsAdd sum (jsOr (getField item f) (.num 0)))
        (.num a) = .num (a + (items.map (contribInt f)).sum) := by
  induction items with
  | nil =>
    intro _ a
    simp
  | cons r t ih =>
    intro h a
    simp only [List.foldl_cons, jsOr_contrib_num f r (h r (List.mem_cons_self r t)),
      jsAdd_num]
    rw [ih (fun x hx => h x (List.mem_cons_of_mem r hx)) (a + contribInt f r)]
    simp [add_assoc]

theorem sumValueField_numeric (f : String) (items : List Record)
    (h : ∀ r ∈ items, numericContrib f r = true) :
    sumValueField items f = .num ((items.map (contribInt f)).sum) := by
  have := foldl_sum_numeric f items h 0
  simpa [sumValueField] using this

theorem sum_contrib_insertGroup (c : Record → Int) (g : Groups) (k : String)
    (i : Record) :
    ((insertGroup g k i).map (fun e => (e.2.map c).sum)).sum =
      (g.map (fun e => (e.2.map c).sum)).sum + c i := by
  induction g with
  | nil => simp [insertGroup]
  | cons e rest ih =>
    by_cases h : e.1 = k
    · simp [insertGroup, h]
      ring
    · simp [insertGroup, h, ih]
      ring

theorem sum_contrib_fold (c : Record → Int) (field : String) (l : List Record) :
    ∀ g : Groups,
      ((l.foldl (groupStep field) g).map (fun e => (e.2.map c).sum)).sum =
        (g.map (fun e => (e.2.map c).sum)).sum + (l.map c).sum := by
  induction l with
  | nil => intro g; simp
  | cons a t ih =>
    intro g
    simp only [List.foldl_cons]
    rw [ih (groupStep field g a)]
    unfold groupStep
    rw [sum_contrib_insertGroup]
    simp only [List.map_cons, List.sum_cons]
    ring

theorem mem_insertGroup (k : String) (i r : Record) :
    ∀ (g : Groups) (e : String × List Record), e ∈ insertGroup g k i → r ∈ e.2 →
      (∃ e0 ∈ g, r ∈ e0.2) ∨ r = i := by
  intro g
  induction g with
  | nil =>
    intro e he hr
    simp [insertGroup] at he
    subst he
    simp at hr
    exact Or.inr hr
  | cons f rest ih =>
    intro e he hr
    by_cases h : f.1 = k
    · simp only [insertGroup, if_pos h] at he
      rcases List.mem_cons.mp he with he1 | he2
      · subst he1
        rcases List.mem_append.mp hr with h1 | h2
        · exact Or.inl ⟨f, List.mem_cons_self f rest, h1⟩
        · simp at h2
          exact Or.inr h2
      · exact Or.inl ⟨e, List.mem_cons_of_mem f he2, hr⟩
    · simp only [insertGroup, if_neg h] at he
      rcases List.mem_cons.mp he with he1 | he2
      · subst he1
        exact Or.inl ⟨e, List.mem_cons_self _ _, hr⟩
      · rcases ih e he2 hr with ⟨e0, he0, hre0⟩ | hri
        · exact Or.inl ⟨e0, List.mem_cons_of_mem f he0, hre0⟩
        · exact Or.inr hri

theorem mem_groupFold (field : String) (l : List Record) :
    ∀ (g : Groups) (e : String × List Record) (r : Record),
      e ∈ l.foldl (groupStep field) g → r ∈ e.2 →
        (∃ e0 ∈ g, r ∈ e0.2) ∨ r ∈ l := by
  induction l with
  | nil =>
    intro g e r he hr
    exact Or.inl ⟨e, he, hr⟩
  | cons a t ih =>
    intro g e r he hr
    simp only [List.foldl_cons] at he
    rcases ih (groupStep field g a) e r he hr with ⟨e0, he0, hre0⟩ | hrt
    · unfold groupStep at he0
      rcases mem_insertGroup _ a r g e0 he0 hre0 with h1 | h2
      · rcases h1 with ⟨e1, he1, hre1⟩
        exact Or.inl ⟨e1, he1, hre1⟩
      · exact Or.inr (h2 ▸ List.mem_cons_self a t)
    · exact Or.inr (List.mem_cons_of_mem a hrt)

theorem mem_data_of_mem_entries (field : String) (data : List Record)
    (e : String × List Record) (r : Record)
    (he : e ∈ objectEntries (data.foldl (groupStep field) [])) (hr : r ∈ e.2) :
    r ∈ data := by
  have he2 : e ∈ data.foldl (groupStep field) [] := (objectEntries_perm _).subset he
  rcases mem_groupFold field data [] e r he2 hr with ⟨e0, he0, _⟩ | h
  · simp at he0
  · exact h

/-- Claim C3 (counterexample): a record whose `MV` holds the truthy
non-numeric string `"x"` does not contribute 0: the `item.MV || 0` coercion
keeps the truthy string and JS `+` then concatenates, so the computed total
is the string `"10x"` rather than the arithmetic sum `10`. -/
theorem c3_coercion_counterexample :
    calculateTotalAUM (some [[("MV", JSVal.num 10)], [("MV", JSVal.str "x")]]) =
      JSVal.str "10x" ∧
    calculateTotalAUM (some [[("MV", JSVal.num 10)], [("MV", JSVal.str "x")]]) ≠
      JSVal.num 10 :=
  ⟨by decide, by decide⟩

/-- Claim C3 (amended): over records whose `MV` coerces to a number under
`item.MV || 0` (that is, `MV` is a number, or missing, or otherwise falsy —
all falsy values contributing 0), the total is the arithmetic sum of the
contributions; truthy non-numeric values are excluded because JS `+` treats
them otherwise (a truthy string concatenates). -/
theorem c3_sum_amended (data : List Record)
    (h : ∀ r ∈ data, numericContrib "MV" r = true) :
    calculateTotalAUM (some data) = .num ((data.map (contribInt "MV")).sum) := by
  cases data with
  | nil => simp [calculateTotalAUM]
  | cons a t =>
    have := foldl_sum_numeric "MV" (a :: t) h 0
    simpa [calculateTotalAUM] using this

/-- Claim C3 (witness): a numeric, a missing, and a `null` `MV` — the falsy
ones contribute 0 and the total is the arithmetic sum. -/
theorem c3_sum_witness :
    (∀ r ∈ [[("MV", JSVal.num 10)], ([] : Record), [("MV", JSVal.null)]],
      numericContrib "MV" r = true) ∧
    calculateTotalAUM (some [[("MV", JSVal.num 10)], ([] : Record), [("MV", JSVal.null)]]) =
      JSVal.num 10 :=
  ⟨by decide,
    (c3_sum_amended [[("MV", JSVal.num 10)], ([] : Record), [("MV", JSVal.null)]]
      (by decide)).trans (by decide)⟩

theorem getField_mkAggRow_value (gf k : String) (items : List Record) :
    getField (mkAggRow gf "MV" k items) "MV" = sumValueField items "MV" := by
  unfold mkAggRow
  rw [getField_setField_ne _ _ _ _ (by decide)]
  exact getField_setField_self _ _ _

/-- Claim C7: aggregation is total-preserving — over records whose `MV`
coerces to a number, the `MV` values of the rows produced by
`aggregateByField` (grouped by any field) add up to `calculateTotalAUM`
of the same records. -/
theorem c7_aggregation_total_preserving (data : List Record) (gf : String)
    (h : ∀ r ∈ data, numericContrib "MV" r = true) :
    ((aggregateByField (some data) gf "MV").map (fun row => getField row "MV")).foldl
      jsAdd (.num 0) = calculateTotalAUM (some data) := by
  cases data with
  | nil => simp [aggregateByField, calculateTotalAUM]
  | cons a t =>
    have hg : groupDataByField (some (a :: t)) gf = (a :: t).foldl (groupStep gf) [] := by
      simp [groupDataByField]
    have hagg : aggregateByField (some (a :: t)) gf "MV" =
        (objectEntries ((a :: t).foldl (groupStep gf) [])).map
          (fun e => mkAggRow gf "MV" e.1 e.2) := by
      simp [aggregateByField, hg]
    rw [hagg, List.map_map]
    have hmap1 : ((fun row => getField row "MV") ∘
          fun e : String × List Record => mkAggRow gf "MV" e.1 e.2) =
        fun e : String × List Record => sumValueField e.2 "MV" := by
      funext e
      exact getField_mkAggRow_value gf e.1 e.2
    rw [hmap1]
    have hmap2 : (objectEntries ((a :: t).foldl (groupStep gf) [])).map
          (fun e : String × List Record => sumValueField e.2 "MV") =
        (objectEntries ((a :: t).foldl (groupStep gf) [])).map
          (JSVal.num ∘ fun e : String × List Record =>
            (e.2.map (contribInt "MV")).sum) := by
      apply List.map_congr_left
      intro e he
      exact sumValueField_numeric "MV" e.2
        (fun r hr => h r (mem_data_of_mem_entries gf (a :: t) e r he hr))
    rw [hmap2, ← List.map_map, foldl_jsAdd_num]
    have hrhs : calculateTotalAUM (some (a :: t)) =
        .num (((a :: t).map (contribInt "MV")).sum) := by
      have := foldl_sum_numeric "MV" (a :: t) h 0
      simpa [calculateTotalAUM] using this
    rw [hrhs]
    congr 1
    rw [zero_add]
    rw [((objectEntries_perm ((a :: t).foldl (groupStep gf) [])).map
      (fun e : String × List Record => (e.2.map (contribInt "MV")).sum)).sum_eq]
    rw [sum_contrib_fold (contribInt "MV") gf (a :: t) []]
    simp

/-- Claim C7 (witness): three numeric records grouped into two fund types;
the per-group sums add up to the grand total. -/
theorem c7_total_witness :
    (∀ r ∈ [[("FundType", JSVal.str "E"), ("MV", JSVal.num 10)],
        [("FundType", JSVal.str "F"), ("MV", JSVal.num 5)],
        [("FundType", JSVal.str "E"), ("MV", JSVal.num 7)]],
      numericContrib "MV" r = true) ∧
    ((aggregateByField (some [[("FundType", JSVal.str "E"), ("MV", JSVal.num 10)],
        [("FundType", JSVal.str "F"), ("MV", JSVal.num 5)],
        [("FundType", JSVal.str "E"), ("MV", JSVal.num 7)]]) "FundType" "MV").map
      (fun row => getField row "MV")).foldl jsAdd (.num 0) =
      calculateTotalAUM (some [[("FundType", JSVal.str "E"), ("MV", JSVal.num 10)],
        [("FundType", JSVal.str "F"), ("MV", JSVal.num 5)],
        [("FundType", JSVal.str "E"), ("MV", JSVal.num 7)]]) :=
  ⟨by decide, c7_aggregation_total_preserving _ "FundType" (by decide)⟩

theorem keys_insertGroup (g : Groups) (k : String) (i : Record) :
    (insertGroup g k i).map Prod.fst =
      if k ∈ g.map Prod.fst then g.map Prod.fst else g.map Prod.fst ++ [k] := by
  induction g with
  | nil => simp [insertGroup]
  | cons e rest ih =>
    by_cases h : e.1 = k
    · simp [insertGroup, h]
    · simp only [insertGroup, if_neg h, List.map_cons, ih]
      by_cases hk : k ∈ rest.map Prod.fst
      · simp [hk, List.mem_cons, Ne.symm h]
      · simp [hk, List.mem_cons, Ne.symm h]

theorem keys_groupFold (field : String) (l : List Record) :
    ∀ g : Groups,
      (l.foldl (groupStep field) g).map Prod.fst =
        l.foldl
          (fun acc r =>
            if jsToString (getField r field) ∈ acc then acc
            else acc ++ [jsToString (getField r field)])
          (g.map Prod.fst) := by
  induction l with
  | nil => intro g; simp
  | cons a t ih =>
    intro g
    simp only [List.foldl_cons]
    rw [ih (groupStep field g a)]
    unfold groupStep
    rw [keys_insertGroup]

theorem firstKeys_eq_foldKeys (data : List Record) (field : String) :
    (data.foldl (groupStep field) []).map Prod.fst = firstKeys data field := by
  have := keys_groupFold field data []
  simpa [firstKeys] using this

theorem mem_foldKeys (field : String) (l : List Record) :
    ∀ (acc : List String) (k : String),
      k ∈ l.foldl
        (fun acc r =>
          if jsToString (getField r field) ∈ acc then acc
          else acc ++ [jsToString (getField r field)])
        acc →
      k ∈ acc ∨ ∃ r ∈ l, k = jsToString (getField r field) := by
  induction l with
  | nil =>
    intro acc k h
    exact Or.inl h
  | cons a t ih =>
    intro acc k h
    simp only [List.foldl_cons] at h
    rcases ih _ k h with hacc | ⟨r, hr, hk⟩
    · by_cases ha : jsToString (getField a field) ∈ acc
      · rw [if_pos ha] at hacc
        exact Or.inl hacc
      · rw [if_neg ha] at hacc
        rcases List.mem_append.mp hacc with h1 | h2
        · exact Or.inl h1
        · simp at h2
          exact Or.inr ⟨a, List.mem_cons_self a t, h2⟩
    · exact Or.inr ⟨r, List.mem_cons_of_mem a hr, hk⟩

/-- Claim C1 (counterexample): with the two numeric-string fund types
`"1"` then `"0"`, `Object.entries` lists the array-index keys in ascending
numeric order, so the aggregate rows come out as `"0", "1"` — not in
first-occurrence order `"1", "0"`. -/
theorem c1_key_order_counterexample :
    (aggregateByField
        (some [[("FundType", JSVal.str "1")], [("FundType", JSVal.str "0")]])
        "FundType" "MV").map (fun row => getField row "FundType") =
      [JSVal.str "0", JSVal.str "1"] ∧
    firstKeys [[("FundType", JSVal.str "1")], [("FundType", JSVal.str "0")]]
        "FundType" = ["1", "0"] ∧
    (aggregateByField
        (some [[("FundType", JSVal.str "1")], [("FundType", JSVal.str "0")]])
        "FundType" "MV").map (fun row => getField row "FundType") ≠
      (firstKeys [[("FundType", JSVal.str "1")], [("FundType", JSVal.str "0")]]
        "FundType").map JSVal.str :=
  ⟨by decide, by decide, by decide⟩

/-- Claim C1 (amended): provided no group key's property-string form is an
ES array index (and the group field is distinct from the value field and
from `"count"`, so each row carries its key), the rows produced by
`aggregateByField` list the group keys in first-occurrence order of the
input sequence; array-index keys would instead be listed first in
ascending numeric order. -/
theorem c1_key_order_amended (data : List Record) (gf vf : String)
    (hidx : ∀ r ∈ data, isArrayIndex (jsToString (getField r gf)) = false)
    (hgv : gf ≠ vf) (hgc : gf ≠ "count") :
    (aggregateByField (some data) gf vf).map (fun row => getField row gf) =
      (firstKeys data gf).map JSVal.str := by
  cases data with
  | nil => simp [aggregateByField, firstKeys]
  | cons a t =>
    have hg : groupDataByField (some (a :: t)) gf = (a :: t).foldl (groupStep gf) [] := by
      simp [groupDataByField]
    have hnoidx : ∀ e ∈ (a :: t).foldl (groupStep gf) [], isArrayIndex e.1 = false := by
      intro e he
      have h1 : e.1 ∈ ((a :: t).foldl (groupStep gf) []).map Prod.fst :=
        List.mem_map_of_mem Prod.fst he
      rw [firstKeys_eq_foldKeys] at h1
      unfold firstKeys at h1
      rcases mem_foldKeys gf (a :: t) [] e.1 h1 with hacc | ⟨r, hr, hk⟩
      · simp at hacc
      · rw [hk]
        exact hidx r hr
    have hfil1 : ((a :: t).foldl (groupStep gf) []).filter
        (fun e => isArrayIndex e.1) = [] :=
      List.filter_eq_nil_iff.mpr (fun e he => by simp [hnoidx e he])
    have hfil2 : ((a :: t).foldl (groupStep gf) []).filter
        (fun e => !isArrayIndex e.1) = (a :: t).foldl (groupStep gf) [] :=
      List.filter_eq_self.mpr (fun e he => by simp [hnoidx e he])
    have hentries : objectEntries ((a :: t).foldl (groupStep gf) []) =
        (a :: t).foldl (groupStep gf) [] := by
      unfold objectEntries
      rw [hfil1, hfil2]
      rfl
    have hagg : aggregateByField (some (a :: t)) gf vf =
        (objectEntries (groupDataByField (some (a :: t)) gf)).map
          (fun e => mkAggRow gf vf e.1 e.2) := rfl
    rw [hagg, hg, hentries, List.map_map]
    have hrow : ((fun row => getField row gf) ∘
          fun e : String × List Record => mkAggRow gf vf e.1 e.2) =
        (JSVal.str ∘ Prod.fst) := by
      funext e
      show getField (mkAggRow gf vf e.1 e.2) gf = JSVal.str e.1
      unfold mkAggRow
      rw [getField_setField_ne _ _ _ _ (Ne.symm hgc)]
      rw [getField_setField_ne _ _ _ _ (Ne.symm hgv)]
      exact getField_setField_self _ _ _
    rw [hrow, ← List.map_map, firstKeys_eq_foldKeys]

/-- Claim C1 (witness): ordinary fund-type names are not array indices, and
the aggregate rows list them in first-occurrence order. -/
theorem c1_key_order_witness :
    (∀ r ∈ [[("FundType", JSVal.str "Equity")], [("FundType", JSVal.str "Bond")],
        [("FundType", JSVal.str "Equity")]],
      isArrayIndex (jsToString (getField r "FundType")) = false) ∧
    ("FundType" : String) ≠ "MV" ∧ ("FundType" : String) ≠ "count" ∧
    (aggregateByField (some [[("FundType", JSVal.str "Equity")],
        [("FundType", JSVal.str "Bond")], [("FundType", JSVal.str "Equity")]])
        "FundType" "MV").map (fun row => getField row "FundType") =
      [JSVal.str "Equity", JSVal.str "Bond"] :=
  ⟨by decide, by decide, by decide,
    (c1_key_order_amended _ "FundType" "MV" (by decide) (by decide) (by decide)).trans
      (by decide)⟩

theorem findGroup_insertGroup_self (g : Groups) (k : String) (i : Record) :
    findGroup (insertGroup g k i) k = findGroup g k ++ [i] := by
  induction g with
  | nil => simp [insertGroup, findGroup]
  | cons e rest ih =>
    by_cases h : e.1 = k
    · simp [insertGroup, findGroup, h]
    · simp [insertGroup, findGroup, h, ih]

theorem findGroup_insertGroup_ne (g : Groups) (k kp : String) (i : Record)
    (h : kp ≠ k) :
    findGroup (insertGroup g kp i) k = findGroup g k := by
  induction g with
  | nil => simp [insertGroup, findGroup, h]
  | cons e rest ih =>
    by_cases he : e.1 = kp
    · have : e.1 ≠ k := he ▸ h
      simp [insertGroup, findGroup, he, this, h]
    · simp [insertGroup, findGroup, he, ih]

theorem findGroup_fold (field : String) (l : List Record) :
    ∀ (g : Groups) (k : String),
      findGroup (l.foldl (groupStep field) g) k =
        findGroup g k ++
          l.filter (fun r => decide (jsToString (getField r field) = k)) := by
  induction l with
  | nil => intro g k; simp
  | cons a t ih =>
    intro g k
    simp only [List.foldl_cons]
    rw [ih (groupStep field g a) k]
    unfold groupStep
    by_cases hk : jsToString (getField a field) = k
    · rw [hk, findGroup_insertGroup_self]
      simp [List.filter_cons, hk]
    · rw [findGroup_insertGroup_ne _ _ _ _ hk]
      simp [List.filter_cons, hk]

theorem findGroup_mem (k : String) :
    ∀ g : Groups, findGroup g k ≠ [] →
      ∃ e ∈ g, e.1 = k ∧ e.2 = findGroup g k := by
  intro g
  induction g with
  | nil => intro h; simp [findGroup] at h
  | cons e rest ih =>
    intro h
    by_cases he : e.1 = k
    · exact ⟨e, List.mem_cons_self _ _, he, by simp [findGroup, he]⟩
    · have hred : findGroup (e :: rest) k = findGroup rest k := by
        simp [findGroup, he]
      rw [hred] at h ⊢
      rcases ih h with ⟨e0, he0, hk0, hv0⟩
      exact ⟨e0, List.mem_cons_of_mem e he0, hk0, hv0⟩

/-- Claim C10: grouping coerces keys to property strings — any two records
whose `field` values have the same string representation (e.g. the number
`1` and the string `"1"`, or a missing field and the string `"undefined"`)
land in the same group of `groupDataByField`; and `aggregateByField`
produces exactly one row per group. -/
theorem c10_string_coerced_grouping (data : List Record) (field vf : String)
    (r₁ r₂ : Record) (h₁ : r₁ ∈ data) (h₂ : r₂ ∈ data)
    (hk : jsToString (getField r₁ field) = jsToString (getField r₂ field)) :
    (∃ e ∈ groupDataByField (some data) field, r₁ ∈ e.2 ∧ r₂ ∈ e.2) ∧
    (aggregateByField (some data) field vf).length =
      (groupDataByField (some data) field).length := by
  cases data with
  | nil => simp at h₁
  | cons a t =>
    have hg : groupDataByField (some (a :: t)) field =
        (a :: t).foldl (groupStep field) [] := by
      simp [groupDataByField]
    have hfg : findGroup ((a :: t).foldl (groupStep field) [])
          (jsToString (getField r₁ field)) =
        (a :: t).filter
          (fun r => decide (jsToString (getField r field) =
            jsToString (getField r₁ field))) := by
      have := findGroup_fold field (a :: t) [] (jsToString (getField r₁ field))
      simpa [findGroup] using this
    have hr₁ : r₁ ∈ findGroup ((a :: t).foldl (groupStep field) [])
        (jsToString (getField r₁ field)) := by
      rw [hfg]
      exact List.mem_filter.mpr ⟨h₁, by simp⟩
    have hr₂ : r₂ ∈ findGroup ((a :: t).foldl (groupStep field) [])
        (jsToString (getField r₁ field)) := by
      rw [hfg]
      exact List.mem_filter.mpr ⟨h₂, by simp [hk]⟩
    constructor
    · have hne : findGroup ((a :: t).foldl (groupStep field) [])
          (jsToString (getField r₁ field)) ≠ [] := by
        intro hemp
        rw [hemp] at hr₁
        simp at hr₁
      rcases findGroup_mem _ _ hne with ⟨e, he, _, hev⟩
      refine ⟨e, ?_, ?_, ?_⟩
      · rw [hg]
        exact he
      · rw [hev]
        exact hr₁
      · rw [hev]
        exact hr₂
    · have hagg : aggregateByField (some (a :: t)) field vf =
          (objectEntries (groupDataByField (some (a :: t)) field)).map
            (fun e => mkAggRow field vf e.1 e.2) := rfl
      rw [hagg, List.length_map]
      exact (objectEntries_perm _).length_eq

/-- Claim C10 (witness): the number `1` and the string `"1"` share the
property string `"1"` and are grouped together. -/
theorem c10_grouping_witness :
    ([("g", JSVal.num 1)] : Record) ∈ [[("g", JSVal.num 1)], [("g", JSVal.str "1")]] ∧
    ([("g", JSVal.str "1")] : Record) ∈ [[("g", JSVal.num 1)], [("g", JSVal.str "1")]] ∧
    jsToString (getField [("g", JSVal.num 1)] "g") =
      jsToString (getField [("g", JSVal.str "1")] "g") ∧
    ∃ e ∈ groupDataByField (some [[("g", JSVal.num 1)], [("g", JSVal.str "1")]]) "g",
      [("g", JSVal.num 1)] ∈ e.2 ∧ [("g", JSVal.str "1")] ∈ e.2 :=
  ⟨by decide, by decide, by decide,
    (c10_string_coerced_grouping [[("g", JSVal.num 1)], [("g", JSVal.str "1")]]
      "g" "MV" [("g", JSVal.num 1)] [("g", JSVal.str "1")]
      (by decide) (by decide) (by decide)).1⟩

end FundDashboard
